import Mathlib

/-!
Verification development for the MoSQITo loudness pipeline
(`src/mosqito/sq_metrics/loudness/loudness_mgs/tv2018_scratch.py`).

The driver `tv2018` is translated from the source file.  The stage
functions it imports from `mgsutils` (field-to-cochlea transform,
filterbank, short-term integrator, binaural combiner, long-term
integrator, sone-to-phon map, audio loader) are not part of the
source tree here, so each of them is modelled from the spec, as
marked in its doc comment.  Signals are rational-valued; a 2-D numpy
array of shape (samples, channels) is a list of rows, each row the
per-channel values of one sample.
-/

set_option linter.unusedVariables false

/-- Rows are samples; each row holds the per-channel values. -/
abbrev Sig2 : Type := List (List ℚ)

/-- Matrix of specific loudness: rows are time frames, columns auditory bands. -/
abbrev Mat : Type := List (List ℚ)

/-- Errors raised by the pipeline: `configurationError` for an
unrecognized field type, `valueError` for a numpy shape error. -/
inductive MosqitoError : Type
  | configurationError : MosqitoError
  | valueError : MosqitoError
  | zeroDivisionError : MosqitoError
deriving DecidableEq

/-- Input arrays as numpy sees them: 1-D (a plain sample list) or
2-D (samples × channels).  `np.pad` with a 2-D pad width rejects 1-D. -/
inductive NpInput : Type
  | one (xs : List ℚ) : NpInput
  | two (xss : Sig2) : NpInput

/-- Row of `w` zero samples, used for zero padding. -/
def zeroRow (w : ℕ) : List ℚ := List.replicate w 0

/-- Channel count of a 2-D signal (width of its rows). -/
def chWidth (xss : Sig2) : ℕ := (xss.headD []).length

/-- Length (number of samples) of an input array, `len(s)` in numpy. -/
def npLen : NpInput → ℕ
  | .one xs => xs.length
  | .two xss => xss.length

/-- Symmetric zero padding of 2048 samples (64 ms at 32 kHz) at each
end, from source line 68: `np.pad(s, ((2048, 2048), (0, 0)))`. -/
def pad2 (xss : Sig2) : Sig2 :=
  List.replicate 2048 (zeroRow (chWidth xss)) ++ xss
    ++ List.replicate 2048 (zeroRow (chWidth xss))

/-- The padding call of source line 68.  numpy raises a shape error
when the pad-width tuple `((2048, 2048), (0, 0))` is applied to a
1-D array, so a 1-D input fails here. -/
def np_pad_2048 : NpInput → Except MosqitoError Sig2
  | .one _ => .error .valueError
  | .two xss => .ok (pad2 xss)

/-- Modelled from the spec: resampling to the operating rate is an
external collaborator (`scipy.signal.resample`); it is modelled as
truncation or zero-extension to the requested sample count,
preserving the dimensionality of the array. -/
def resampleTo (n : ℕ) : NpInput → NpInput
  | .one xs => .one ((xs ++ List.replicate n 0).take n)
  | .two xss => .two ((xss ++ List.replicate n (zeroRow (chWidth xss))).take n)

/-- The rate check and resampling of source lines 58-63: at 32 kHz
the signal passes through; at any other rate the target sample count
`int(32000 * len(s) / fs)` is computed, which raises a division
error at rate zero before any later stage runs, and otherwise the
signal is resampled to that count. -/
def resampleStep (s : NpInput) (fs : ℕ) : Except MosqitoError NpInput :=
  if fs ≠ 32000 then
    if fs = 0 then .error .zeroDivisionError
    else .ok (resampleTo (32000 * npLen s / fs) s)
  else .ok s

/-- Field-dependent gain: the two recognized field types of spec
section 4.1 (free field and diffuse field); any other selector is
unsupported. -/
def fieldGain : String → Option ℚ
  | "free" => some 1
  | "diffuse" => some (98 / 100)
  | _ => none

/-- Modelled from the spec (section 4.1): the field-to-cochlea
transform applies a fixed field-dependent correction plus the
outer/middle-ear characteristic per channel, preserving length and
rate; the exact transfer curves live in the standard's tables (spec
section 9), so the correction is modelled as a per-sample gain.  An
unrecognized field type fails with a configuration error. -/
def sound_field_to_cochlea (s : Sig2) (field_type : String) :
    Except MosqitoError Sig2 :=
  match fieldGain field_type with
  | some g => .ok (s.map (List.map (fun x => g * x)))
  | none => .error .configurationError

/-- Number of auditory bands (fixed by the standard; 150 bands at
0.25-ERB steps in the Moore-Glasberg model). -/
def nBands : ℕ := 150

/-- Absolute-threshold floor of band `b` (frequency dependent;
modelled from the spec, exact values in the standard's tables). -/
def thrB (b : ℕ) : ℚ := 1 + b

/-- Split a list into consecutive frames of 32 samples (1 ms hop at
32 kHz); the fuel argument is the number of whole frames. -/
def chunkGo : ℕ → List (List ℚ) → List Sig2
  | 0, _ => []
  | n + 1, xs => xs.take 32 :: chunkGo n (xs.drop 32)

/-- Frames of a padded signal: one frame per 32 samples. -/
def frames (s : Sig2) : List Sig2 := chunkGo (s.length / 32) s

/-- Magnitude of channel `c` of one sample row (missing channels read
as silence). -/
def chanAbs (c : ℕ) (row : List ℚ) : ℚ := |row.getD c 0|

/-- Per-frame level of channel `c`: total magnitude of the frame's
samples on that channel. -/
def frameLevel (c : ℕ) (fr : Sig2) : ℚ := (fr.map (chanAbs c)).sum

/-- Modelled from the spec (section 4.2): excitation level plus the
calibration level is sent through a compressive transform with an
absolute-threshold floor; sub-threshold excitation contributes zero
loudness. -/
def specificLoudness (e db : ℚ) (b : ℕ) : ℚ :=
  let m := max 0 (e + db - thrB b)
  m / (1 + m)

/-- One row (one time frame) of the instantaneous specific loudness
matrix of channel `c`. -/
def instRow (c : ℕ) (db : ℚ) (fr : Sig2) : List ℚ :=
  (List.range nBands).map (specificLoudness (frameLevel c fr) db)

/-- Modelled from the spec (section 4.2): the filterbank converts a
cochlea signal into a per-channel time-frame × band matrix of
instantaneous specific loudness; returns the (left, right) pair.
The sampling-rate argument is fixed at 32 kHz by the caller. -/
def filtered_signal_to_monaural_instantaneous_specific_loudness
    (s : Sig2) (fs : ℕ) (db_max : ℚ) : Mat × Mat :=
  ((frames s).map (instRow 0 db_max), (frames s).map (instRow 1 db_max))

/-- Frame trimming of source lines 79-84: Python `m[32:-32, :]`,
dropping 32 frames at each end. -/
def trim32 (m : Mat) : Mat := (m.drop 32).take (m.length - 64)

/-- Zeroing of the first retained frame, source lines 87-88:
Python `m[0, :] = 0`. -/
def zeroFirst (m : Mat) : Mat :=
  match m with
  | [] => []
  | r :: rs => zeroRow r.length :: rs

/-- Trimmed and onset-zeroed instantaneous matrix of the left channel,
as built by source lines 74-88 from the cochlea signal. -/
def instTrimmedL (s : Sig2) (db : ℚ) : Mat :=
  zeroFirst (trim32
    (filtered_signal_to_monaural_instantaneous_specific_loudness s 32000 db).1)

/-- Trimmed and onset-zeroed instantaneous matrix of the right channel. -/
def instTrimmedR (s : Sig2) (db : ℚ) : Mat :=
  zeroFirst (trim32
    (filtered_signal_to_monaural_instantaneous_specific_loudness s 32000 db).2)

/-- One step of the asymmetric attack/release recursion of the
short-term integrator (attack 3/4, release 1/4). -/
def st_step (x y : ℚ) : ℚ :=
  if y ≤ x then 3 / 4 * x + 1 / 4 * y else 1 / 4 * x + 3 / 4 * y

/-- One step of the slower asymmetric recursion of the long-term
integrator (attack 1/2, release 1/8). -/
def lt_step (x y : ℚ) : ℚ :=
  if y ≤ x then 1 / 2 * x + 1 / 2 * y else 1 / 8 * x + 7 / 8 * y

/-- Carry-state fold of the short-term recursion over the frames of a
matrix, band by band. -/
def stGo (y : List ℚ) : Mat → Mat
  | [] => []
  | r :: rs =>
    let y' := List.zipWith st_step r y
    y' :: stGo y' rs

/-- Modelled from the spec (section 4.3): per band, a first-order
recursive smoothing with asymmetric time constants, processed in
increasing time order; the second component is the per-channel scalar
short-term loudness that the caller leaves unused (see spec
section 9). -/
def instantaneous_specific_loudness_to_short_term_specific_loudness
    (m : Mat) : Mat × List ℚ :=
  let sm := stGo (zeroRow nBands) m
  (sm, sm.map (fun r => r.sum / 4))

/-- Band-wise binaural combination: each ear keeps half of its own
specific loudness plus a quarter of the band minimum. -/
def binCombine (a b : ℚ) : ℚ := a / 2 + min a b / 4

/-- Modelled from the spec (section 4.4): stateless per-frame fusion
of the two ears' short-term band vectors into the triple (binaural
total, left-attributed total, right-attributed total); the exact
inhibition curve lives in the standard, so it is modelled band by
band through `binCombine`, integrated at the 0.25-ERB step (the
division by 4). -/
def monaural_specific_loudness_to_binaural_loudness_025
    (l r : List ℚ) : ℚ × ℚ × ℚ :=
  let lt' := (List.zipWith binCombine l r).sum / 4
  let rt' := (List.zipWith binCombine r l).sum / 4
  (lt' + rt', lt', rt')

/-- Carry-state fold of the long-term recursion over a scalar
loudness sequence. -/
def ltGo (y : ℚ) : List ℚ → List ℚ
  | [] => []
  | x :: xs =>
    let y' := lt_step x y
    y' :: ltGo y' xs

/-- Modelled from the spec (section 4.5): the long-term integrator
applies a second, slower asymmetric recursive smoothing to the
per-frame total loudness sequence, in increasing time order. -/
def short_term_loudness_to_long_term_loudness (xs : List ℚ) : List ℚ :=
  ltGo 0 xs

/-- Modelled from the spec (section 4.6): monotonic sone-to-phon map
anchored at the 1 kHz reference convention (1 sone = 40 phon); the
exact piecewise curve lives in the standard. -/
def sone_to_phon_tv2018 (x : ℚ) : ℚ :=
  if x ≤ 1 then 40 * x else 40 + 10 * (x - 1)

/-- Maximum of a loudness sequence (`np.max`; 0 on the empty list,
which the pipeline never produces). -/
def maxQ : List ℚ → ℚ
  | [] => 0
  | x :: xs => max x (maxQ xs)

/-- The five arrays returned by `tv2018` (source lines 157-163). -/
structure Outputs : Type where
  loudness : ℚ
  short_term_loudness : List ℚ
  long_term_loudness : List ℚ
  instantaneous_loudness_left : List ℚ
  instantaneous_loudness_right : List ℚ
deriving DecidableEq

/-- Source lines 103-134: per-frame binaural combination of the two
short-term matrices, long-term integration of each side, the final
scalar, and the per-channel instantaneous loudness sequences. -/
def outputsFromShortTerm (iL iR : Mat) (sL sR : Mat) : Outputs :=
  let stlL := List.zipWith
    (fun a b => (monaural_specific_loudness_to_binaural_loudness_025 a b).2.1)
    sL sR
  let stlR := List.zipWith
    (fun a b => (monaural_specific_loudness_to_binaural_loudness_025 a b).2.2)
    sL sR
  let ltlL := short_term_loudness_to_long_term_loudness stlL
  let ltlR := short_term_loudness_to_long_term_loudness stlR
  let long_term := List.zipWith (· + ·) ltlL ltlR
  ⟨maxQ long_term,
   List.zipWith (· + ·) stlL stlR,
   long_term,
   iL.map (fun r => r.sum / 4),
   iR.map (fun r => r.sum / 4)⟩

/-- Source lines 73-134 applied to the cochlea signal: the filterbank,
edge trimming, onset zeroing, short-term integration (whose scalar
second component is bound and left unused, as in the source), and the
binaural/long-term tail. -/
def outputsOf (s : Sig2) (db_max : ℚ) : Outputs :=
  let pL := instantaneous_specific_loudness_to_short_term_specific_loudness
    (instTrimmedL s db_max)
  let pR := instantaneous_specific_loudness_to_short_term_specific_loudness
    (instTrimmedR s db_max)
  outputsFromShortTerm (instTrimmedL s db_max) (instTrimmedR s db_max) pL.1 pR.1

/-- Same pipeline tail, with the unused scalar second component of the
short-term integrator replaced by arbitrary sequences. -/
def outputsOfAlt (uL uR : List ℚ) (s : Sig2) (db_max : ℚ) : Outputs :=
  let pL := ((instantaneous_specific_loudness_to_short_term_specific_loudness
    (instTrimmedL s db_max)).1, uL)
  let pR := ((instantaneous_specific_loudness_to_short_term_specific_loudness
    (instTrimmedR s db_max)).1, uR)
  outputsFromShortTerm (instTrimmedL s db_max) (instTrimmedR s db_max) pL.1 pR.1

/-- Pipeline from the padded signal on: field-to-cochlea transform
(source line 71), then the loudness stages. -/
def tv2018core (sp : Sig2) (db_max : ℚ) (field_type : String) :
    Except MosqitoError Outputs :=
  match sound_field_to_cochlea sp field_type with
  | .error e => .error e
  | .ok sc => .ok (outputsOf sc db_max)

/-- Zero padding (source line 68) followed by the pipeline proper. -/
def padThenCore (inp : NpInput) (db_max : ℚ) (field_type : String) :
    Except MosqitoError Outputs :=
  match np_pad_2048 inp with
  | .error e => .error e
  | .ok sp => tv2018core sp db_max field_type

/-- Translation of `tv2018` (source lines 23-163), parametric in the
external audio loader (`load` from `mgsutils`, an external
collaborator per spec section 1).  When the sample array or the rate
is missing the loader runs; a rate other than 32 kHz goes through
the resampling step of lines 58-63, whose target-count division
fails at rate zero; the resulting signal is then zero padded and
sent through the pipeline.  Console printing is I/O only and does
not affect the returned values. -/
def tv2018 (loadFn : String → NpInput × ℕ) (filename_sound : String)
    (db_max : ℚ) (field_type : String)
    (s_opt : Option NpInput) (fs_opt : Option ℕ) :
    Except MosqitoError Outputs :=
  let sfs : NpInput × ℕ :=
    match s_opt, fs_opt with
    | some s, some fs => (s, fs)
    | _, _ => loadFn filename_sound
  match resampleStep sfs.1 sfs.2 with
  | .error e => .error e
  | .ok s2 => padThenCore s2 db_max field_type

/-- Trivial loader used to instantiate the external-collaborator
parameter in concrete instances. -/
def loadStub : String → NpInput × ℕ := fun _ => (.two [], 32000)

/-- Named field selector, free field. -/
def fieldFree : String := "free"

/-- Placeholder file name for concrete instances (the loader never
runs when the sample array and rate are supplied). -/
def fnameA : String := "a.wav"

/-- Loudness scalar of a pipeline result, 0 on failure. -/
def loudnessOf : Except MosqitoError Outputs → ℚ
  | .error _ => 0
  | .ok o => o.loudness

/-- Whether a pipeline run produced a result rather than an error. -/
def exceptIsOk : Except MosqitoError Outputs → Bool
  | .error _ => false
  | .ok _ => true

/-- Short-term specific loudness matrix of the left channel, first
component of the integrator's return (source lines 91-95). -/
def shortTermMatL (s : Sig2) (db : ℚ) : Mat :=
  (instantaneous_specific_loudness_to_short_term_specific_loudness
    (instTrimmedL s db)).1

/-- Short-term specific loudness matrix of the right channel. -/
def shortTermMatR (s : Sig2) (db : ℚ) : Mat :=
  (instantaneous_specific_loudness_to_short_term_specific_loudness
    (instTrimmedR s db)).1

/-- Per-frame left-attributed short-term totals drawn from the
binaural combiner (source lines 106-113). -/
def stlSeqL (s : Sig2) (db : ℚ) : List ℚ :=
  List.zipWith
    (fun a b => (monaural_specific_loudness_to_binaural_loudness_025 a b).2.1)
    (shortTermMatL s db) (shortTermMatR s db)

/-- Per-frame right-attributed short-term totals drawn from the
binaural combiner. -/
def stlSeqR (s : Sig2) (db : ℚ) : List ℚ :=
  List.zipWith
    (fun a b => (monaural_specific_loudness_to_binaural_loudness_025 a b).2.2)
    (shortTermMatL s db) (shortTermMatR s db)

/-- Long-term loudness sequence of the left channel (source
lines 116-118). -/
def ltlSeqL (s : Sig2) (db : ℚ) : List ℚ :=
  short_term_loudness_to_long_term_loudness (stlSeqL s db)

/-- Long-term loudness sequence of the right channel. -/
def ltlSeqR (s : Sig2) (db : ℚ) : List ℚ :=
  short_term_loudness_to_long_term_loudness (stlSeqR s db)

/-- All entries of a loudness sequence are non-negative. -/
abbrev nnList (l : List ℚ) : Prop := ∀ x ∈ l, 0 ≤ x

/-- All entries of a loudness matrix are non-negative. -/
abbrev nnMat (m : Mat) : Prop := ∀ r ∈ m, nnList r

/-- All five returned arrays and the scalar are non-negative. -/
def outNonneg (o : Outputs) : Prop :=
  0 ≤ o.loudness
  ∧ nnList o.short_term_loudness
  ∧ nnList o.long_term_loudness
  ∧ nnList o.instantaneous_loudness_left
  ∧ nnList o.instantaneous_loudness_right

/-- Non-negativity of a pipeline result (vacuous on failure). -/
def exceptNonneg : Except MosqitoError Outputs → Prop
  | .error _ => True
  | .ok o => outNonneg o

/-- Pointwise order on loudness sequences of equal length. -/
abbrev leV (l1 l2 : List ℚ) : Prop := List.Forall₂ (· ≤ ·) l1 l2

/-- Pointwise order on loudness matrices of equal shape. -/
abbrev leM (m1 m2 : Mat) : Prop := List.Forall₂ leV m1 m2

/-! ## Claim theorems -/

/-- C3: for every cochlea signal and calibration level, the overall
loudness scalar equals the maximum over retained frames of the sum of
the left and right long-term loudness sequences produced by the
long-term integrator. -/
theorem loudness_eq_max_sum_long_term (s : Sig2) (db : ℚ) :
    (outputsOf s db).loudness
      = maxQ (List.zipWith (· + ·) (ltlSeqL s db) (ltlSeqR s db)) := rfl

/-- C4: the scalar short-term loudness returned as the second
component of the short-term integrator is dead output; replacing it
by arbitrary sequences leaves all five pipeline outputs unchanged. -/
theorem short_term_scalar_is_dead_output (uL uR : List ℚ) (s : Sig2) (db : ℚ) :
    outputsOfAlt uL uR s db = outputsOf s db := rfl

/-- C8: the sone-to-phon converter is a monotonic mapping anchored at
the 1 kHz reference convention, sending the sone value 1 to exactly
40 phon. -/
theorem sone_to_phon_monotone_anchor :
    Monotone sone_to_phon_tv2018 ∧ sone_to_phon_tv2018 1 = 40 := by
  constructor
  · intro a b hab
    simp only [sone_to_phon_tv2018]
    split_ifs <;> linarith
  · norm_num [sone_to_phon_tv2018]

/-- C9: when both the sample array and the sampling rate are supplied,
the sound file name has no influence on the returned outputs. -/
theorem filename_no_influence (loadFn : String → NpInput × ℕ)
    (fn1 fn2 : String) (db : ℚ) (field : String) (s : NpInput) (fs : ℕ) :
    tv2018 loadFn fn1 db field (some s) (some fs)
      = tv2018 loadFn fn2 db field (some s) (some fs) := rfl

/-- C1 counterexample: at sampling rate 16 kHz the pipeline does not
fail with a configuration error; it produces a result. -/
theorem wrongRate_no_configurationError :
    exceptIsOk (tv2018 loadStub fnameA 0 fieldFree
      (some (NpInput.two [[0, 0]])) (some 16000)) = true := rfl

/-- C1 amended: for every input at a nonzero sampling rate other than
32 kHz, the pipeline does not fail; it substitutes the signal
resampled to `int(32000 * len(s) / fs)` samples and proceeds exactly
as if called at 32 kHz with the resampled signal. -/
theorem wrongRate_resampled_and_processed (loadFn : String → NpInput × ℕ)
    (fn : String) (db : ℚ) (field : String) (s : NpInput) (fs : ℕ)
    (hne : fs ≠ 32000) (hpos : 0 < fs) :
    tv2018 loadFn fn db field (some s) (some fs)
      = tv2018 loadFn fn db field
          (some (resampleTo (32000 * npLen s / fs) s)) (some 32000) := by
  have h0 : fs ≠ 0 := by omega
  simp [tv2018, resampleStep, hne, h0]

/-- C1 amended, instance: the 16 kHz run equals the resampled 32 kHz
run on a concrete signal. -/
theorem wrongRate_resampled_and_processed_inst :
    (16000 ≠ 32000 ∧ 0 < 16000)
    ∧ tv2018 loadStub fnameA 0 fieldFree (some (NpInput.two [[0]])) (some 16000)
        = tv2018 loadStub fnameA 0 fieldFree
            (some (resampleTo (32000 * npLen (NpInput.two [[0]]) / 16000)
              (NpInput.two [[0]]))) (some 32000) :=
  ⟨⟨by decide, by decide⟩,
   wrongRate_resampled_and_processed loadStub fnameA 0 fieldFree
     (NpInput.two [[0]]) 16000 (by decide) (by decide)⟩

/-- C5 counterexample: the signal handed to the field-to-cochlea
transform is not the caller's signal; the padding call inserts zeros
around it, so the core does apply padding of its own. -/
theorem padding_applied_by_core_cex :
    np_pad_2048 (NpInput.two [[0, 0]]) = .ok (pad2 [[0, 0]])
      ∧ pad2 [[0, 0]] ≠ [[0, 0]] := by
  refine ⟨rfl, ?_⟩
  decide

/-- C5 amended: the core performs the boundary padding itself: before
the field-to-cochlea transform it symmetrically inserts 2048 zero
samples (64 ms at 32 kHz) at each end of the caller's signal. -/
theorem core_pads_2048_each_side (loadFn : String → NpInput × ℕ)
    (fn : String) (db : ℚ) (field : String) (xss : Sig2) :
    tv2018 loadFn fn db field (some (NpInput.two xss)) (some 32000)
      = tv2018core (pad2 xss) db field
    ∧ (pad2 xss).length = xss.length + 2 * 2048
    ∧ (pad2 xss).take 2048 = List.replicate 2048 (zeroRow (chWidth xss))
    ∧ (pad2 xss).drop (2048 + xss.length)
        = List.replicate 2048 (zeroRow (chWidth xss)) := by
  refine ⟨by simp [tv2018, resampleStep, padThenCore, np_pad_2048], ?_, ?_, ?_⟩
  · rw [pad2, List.length_append, List.length_append, List.length_replicate]
    omega
  · rw [pad2, List.append_assoc]
    exact List.take_left' (List.length_replicate _ _)
  · rw [pad2]
    refine List.drop_left' ?_
    rw [List.length_append, List.length_replicate]

/-- C10: at every nonzero sampling rate (rate zero aborts earlier,
at the resampling division of source line 62) the padding step
rejects every one-dimensional sample array with a shape error before
any pipeline stage runs, while a mono signal in two-dimensional
(N, 1) shape is accepted. -/
theorem one_dim_input_rejected :
    (∀ (loadFn : String → NpInput × ℕ) (fn : String) (db : ℚ)
        (field : String) (xs : List ℚ) (fs : ℕ), 0 < fs →
      tv2018 loadFn fn db field (some (NpInput.one xs)) (some fs)
        = .error .valueError)
    ∧ exceptIsOk (tv2018 loadStub fnameA 0 fieldFree
        (some (NpInput.two [[0]])) (some 32000)) = true := by
  constructor
  · intro loadFn fn db field xs fs hfs
    by_cases h : fs = 32000
    · subst h
      simp [tv2018, resampleStep, padThenCore, np_pad_2048]
    · have h0 : fs ≠ 0 := by omega
      simp [tv2018, resampleStep, padThenCore, h, h0, resampleTo, np_pad_2048]
  · rfl

/-- C10, instance: a concrete one-dimensional input at the nonzero
rate 16 kHz is rejected with the padding shape error. -/
theorem one_dim_input_rejected_inst :
    (0 < 16000)
    ∧ tv2018 loadStub fnameA 0 fieldFree (some (NpInput.one [0])) (some 16000)
        = .error .valueError :=
  ⟨by decide,
   one_dim_input_rejected.1 loadStub fnameA 0 fieldFree [0] 16000 (by decide)⟩

/-! ## Frame counting and trimming (claim C2) -/

/-- Chunking produces exactly as many frames as its fuel. -/
theorem chunkGo_length (n : ℕ) : ∀ xs : List (List ℚ), (chunkGo n xs).length = n := by
  induction n with
  | zero => intro xs; rfl
  | succ k ih => intro xs; simp [chunkGo, ih]

/-- The frame count of a signal is its sample count divided by the hop. -/
theorem frames_length (s : Sig2) : (frames s).length = s.length / 32 := by
  simp [frames, chunkGo_length]

/-- Padding adds 2048 samples at each end. -/
theorem pad2_length (xss : Sig2) : (pad2 xss).length = xss.length + 4096 := by
  rw [pad2, List.length_append, List.length_append, List.length_replicate]
  omega

/-- Every row of the instantaneous matrix has one entry per band. -/
theorem instRow_length (c : ℕ) (db : ℚ) (fr : Sig2) :
    (instRow c db fr).length = nBands := by
  simp [instRow]

/-- Trimming removes 32 frames at each end. -/
theorem trim32_length (m : Mat) : (trim32 m).length = m.length - 64 := by
  simp only [trim32, List.length_take, List.length_drop]
  omega

/-- Zeroing the first frame keeps the frame count. -/
theorem zeroFirst_length (m : Mat) : (zeroFirst m).length = m.length := by
  cases m <;> simp [zeroFirst, zeroRow]

/-- Rows of the trimmed matrix are rows of the original matrix. -/
theorem mem_trim32 {r : List ℚ} {m : Mat} (h : r ∈ trim32 m) : r ∈ m :=
  List.mem_of_mem_drop (List.mem_of_mem_take h)

/-- After onset zeroing, a nonempty matrix with band-wide rows starts
with the zero row. -/
theorem zeroFirst_headD (m : Mat) (hne : m ≠ [])
    (hw : ∀ r ∈ m, r.length = nBands) :
    (zeroFirst m).headD [] = zeroRow nBands := by
  cases m with
  | nil => exact absurd rfl hne
  | cons r rs =>
    simp only [zeroFirst, List.headD_cons]
    rw [hw r (List.mem_cons_self r rs)]

/-- The field-to-cochlea transform preserves the signal length. -/
theorem cochlea_length {s sc : Sig2} {f : String}
    (h : sound_field_to_cochlea s f = .ok sc) : sc.length = s.length := by
  unfold sound_field_to_cochlea at h
  cases hg : fieldGain f with
  | none => rw [hg] at h; exact absurd h (by simp)
  | some g =>
    rw [hg] at h
    simp only [Except.ok.injEq] at h
    rw [← h]
    exact List.length_map _ _

/-- C2: on every input the per-channel instantaneous specific loudness
matrices are trimmed by 32 frames at each end, so the retained frame
count is the padded-signal frame count minus the two edge trims, and
the first retained frame is the zero row in every band, regardless of
the signal content. -/
theorem instantaneous_trim_length_and_onset_zero
    (xss : Sig2) (db : ℚ) (field : String) :
    match sound_field_to_cochlea (pad2 xss) field with
    | .error _ => True
    | .ok sc =>
        (instTrimmedL sc db).length = (pad2 xss).length / 32 - 64
        ∧ (instTrimmedL sc db).headD [] = zeroRow nBands
        ∧ (instTrimmedR sc db).length = (pad2 xss).length / 32 - 64
        ∧ (instTrimmedR sc db).headD [] = zeroRow nBands := by
  cases h : sound_field_to_cochlea (pad2 xss) field with
  | error e => trivial
  | ok sc =>
    simp only []
    have hsc : sc.length = xss.length + 4096 := by
      rw [cochlea_length h, pad2_length]
    have hdiv : sc.length / 32 = xss.length / 32 + 128 := by
      rw [hsc]
      omega
    have hpadlen : (pad2 xss).length / 32 = xss.length / 32 + 128 := by
      rw [pad2_length]
      omega
    have hL : ∀ c : ℕ, ((frames sc).map (instRow c db)).length = sc.length / 32 := by
      intro c
      rw [List.length_map, frames_length]
    have hmemL : ∀ (c : ℕ) r, r ∈ trim32 ((frames sc).map (instRow c db)) →
        r.length = nBands := by
      intro c r hr
      rcases List.mem_map.1 (mem_trim32 hr) with ⟨fr, _, hfr⟩
      rw [← hfr]
      exact instRow_length c db fr
    have hnil : ∀ c : ℕ, trim32 ((frames sc).map (instRow c db)) ≠ [] := by
      intro c
      apply List.ne_nil_of_length_pos
      rw [trim32_length, hL, hdiv]
      omega
    refine ⟨?_, ?_, ?_, ?_⟩
    · show (zeroFirst (trim32 ((frames sc).map (instRow 0 db)))).length = _
      rw [zeroFirst_length, trim32_length, hL, hdiv, hpadlen]
    · exact zeroFirst_headD _ (hnil 0) (hmemL 0)
    · show (zeroFirst (trim32 ((frames sc).map (instRow 1 db)))).length = _
      rw [zeroFirst_length, trim32_length, hL, hdiv, hpadlen]
    · exact zeroFirst_headD _ (hnil 1) (hmemL 1)

/-! ## Non-negativity (claim C7) -/

/-- Specific loudness is non-negative: the thresholded excitation is
non-negative and the compressive transform preserves its sign. -/
theorem specificLoudness_nonneg (e db : ℚ) (b : ℕ) :
    0 ≤ specificLoudness e db b := by
  unfold specificLoudness
  have hm : (0 : ℚ) ≤ max 0 (e + db - thrB b) := le_max_left _ _
  exact div_nonneg hm (by linarith)

/-- Every row of the instantaneous matrix is non-negative. -/
theorem instMat_nonneg (s : Sig2) (db : ℚ) (c : ℕ) :
    nnMat ((frames s).map (instRow c db)) := by
  intro r hr
  rcases List.mem_map.1 hr with ⟨fr, _, hfr⟩
  intro x hx
  rw [← hfr] at hx
  rcases List.mem_map.1 hx with ⟨b, _, hb⟩
  rw [← hb]
  exact specificLoudness_nonneg _ _ _

/-- Trimming preserves matrix non-negativity. -/
theorem trim32_nonneg {m : Mat} (h : nnMat m) : nnMat (trim32 m) :=
  fun r hr => h r (mem_trim32 hr)

/-- Onset zeroing preserves matrix non-negativity. -/
theorem zeroFirst_nonneg {m : Mat} (h : nnMat m) : nnMat (zeroFirst m) := by
  cases m with
  | nil => exact h
  | cons r rs =>
    intro q hq
    rcases List.mem_cons.1 hq with hq | hq
    · intro x hx
      rw [hq] at hx
      rw [List.eq_of_mem_replicate hx]
    · exact h q (List.mem_cons_of_mem r hq)

/-- One smoothing step of the short-term recursion stays non-negative. -/
theorem st_step_nonneg {x y : ℚ} (hx : 0 ≤ x) (hy : 0 ≤ y) :
    0 ≤ st_step x y := by
  unfold st_step
  split_ifs <;> linarith

/-- One smoothing step of the long-term recursion stays non-negative. -/
theorem lt_step_nonneg {x y : ℚ} (hx : 0 ≤ x) (hy : 0 ≤ y) :
    0 ≤ lt_step x y := by
  unfold lt_step
  split_ifs <;> linarith

/-- A pointwise combination of two lists of well-behaved elements
yields a non-negative list. -/
theorem zipWith_nonneg {α β : Type} (P : α → Prop) (Q : β → Prop)
    (f : α → β → ℚ) (hf : ∀ a b, P a → Q b → 0 ≤ f a b) :
    ∀ {l1 : List α} {l2 : List β}, (∀ a ∈ l1, P a) → (∀ b ∈ l2, Q b) →
      nnList (List.zipWith f l1 l2) := by
  intro l1
  induction l1 with
  | nil => intro l2 _ _ x hx; simp at hx
  | cons a as ih =>
    intro l2 h1 h2
    cases l2 with
    | nil => intro x hx; simp at hx
    | cons b bs =>
      intro x hx
      rcases List.mem_cons.1 hx with hx | hx
      · rw [hx]
        exact hf a b (h1 a (List.mem_cons_self a as)) (h2 b (List.mem_cons_self b bs))
      · exact ih (fun q hq => h1 q (List.mem_cons_of_mem a hq))
          (fun q hq => h2 q (List.mem_cons_of_mem b hq)) x hx

/-- The short-term fold keeps all bands non-negative. -/
theorem stGo_nonneg : ∀ {m : Mat} {y : List ℚ},
    nnList y → nnMat m → nnMat (stGo y m) := by
  intro m
  induction m with
  | nil => intro y _ _ r hr; simp [stGo] at hr
  | cons r rs ih =>
    intro y hy hm q hq
    have hr : nnList r := hm r (List.mem_cons_self r rs)
    have hy' : nnList (List.zipWith st_step r y) :=
      zipWith_nonneg (fun a => 0 ≤ a) (fun b => 0 ≤ b) st_step
        (fun a b ha hb => st_step_nonneg ha hb) hr hy
    rcases List.mem_cons.1 hq with hq | hq
    · rw [hq]; exact hy'
    · exact ih hy' (fun p hp => hm p (List.mem_cons_of_mem r hp)) q hq

/-- Band-wise binaural combination of non-negative values is
non-negative. -/
theorem binCombine_nonneg {a b : ℚ} (ha : 0 ≤ a) (hb : 0 ≤ b) :
    0 ≤ binCombine a b := by
  have hmin : (0 : ℚ) ≤ min a b := le_min ha hb
  unfold binCombine
  linarith

/-- The left-attributed binaural total of two non-negative band
vectors is non-negative. -/
theorem binauralL_nonneg {a b : List ℚ} (ha : nnList a) (hb : nnList b) :
    0 ≤ (monaural_specific_loudness_to_binaural_loudness_025 a b).2.1 := by
  show 0 ≤ (List.zipWith binCombine a b).sum / 4
  have hs : nnList (List.zipWith binCombine a b) :=
    zipWith_nonneg (fun x => 0 ≤ x) (fun y => 0 ≤ y) binCombine
      (fun x y hx hy => binCombine_nonneg hx hy) ha hb
  have h4 := List.sum_nonneg hs
  positivity

/-- The right-attributed binaural total of two non-negative band
vectors is non-negative. -/
theorem binauralR_nonneg {a b : List ℚ} (ha : nnList a) (hb : nnList b) :
    0 ≤ (monaural_specific_loudness_to_binaural_loudness_025 a b).2.2 := by
  show 0 ≤ (List.zipWith binCombine b a).sum / 4
  have hs : nnList (List.zipWith binCombine b a) :=
    zipWith_nonneg (fun x => 0 ≤ x) (fun y => 0 ≤ y) binCombine
      (fun x y hx hy => binCombine_nonneg hx hy) hb ha
  have h4 := List.sum_nonneg hs
  positivity

/-- The long-term fold keeps the sequence non-negative. -/
theorem ltGo_nonneg : ∀ {xs : List ℚ} {y : ℚ},
    0 ≤ y → nnList xs → nnList (ltGo y xs) := by
  intro xs
  induction xs with
  | nil => intro y _ _ x hx; simp [ltGo] at hx
  | cons x xs ih =>
    intro y hy hxs q hq
    have hx : 0 ≤ x := hxs x (List.mem_cons_self x xs)
    have hy' : 0 ≤ lt_step x y := lt_step_nonneg hx hy
    rcases List.mem_cons.1 hq with hq | hq
    · rw [hq]; exact hy'
    · exact ih hy' (fun p hp => hxs p (List.mem_cons_of_mem x hp)) q hq

/-- The sequence maximum is never negative (its base value is zero). -/
theorem maxQ_nonneg : ∀ l : List ℚ, 0 ≤ maxQ l := by
  intro l
  induction l with
  | nil => exact le_refl 0
  | cons x xs ih => exact le_max_of_le_right ih

/-- Per-frame total loudness of a non-negative matrix is a
non-negative sequence. -/
theorem rowSums_nonneg {m : Mat} (h : nnMat m) :
    nnList (m.map (fun r => r.sum / 4)) := by
  intro x hx
  rcases List.mem_map.1 hx with ⟨r, hr, hrx⟩
  rw [← hrx]
  have h4 := List.sum_nonneg (h r hr)
  positivity

/-- The binaural/long-term tail maps non-negative matrices to
non-negative outputs. -/
theorem outputsFromShortTerm_nonneg {iL iR sL sR : Mat}
    (hiL : nnMat iL) (hiR : nnMat iR) (hsL : nnMat sL) (hsR : nnMat sR) :
    outNonneg (outputsFromShortTerm iL iR sL sR) := by
  have hstlL : nnList (List.zipWith
      (fun a b => (monaural_specific_loudness_to_binaural_loudness_025 a b).2.1)
      sL sR) :=
    zipWith_nonneg nnList nnList
      (fun a b => (monaural_specific_loudness_to_binaural_loudness_025 a b).2.1)
      (fun a b ha hb => binauralL_nonneg ha hb) hsL hsR
  have hstlR : nnList (List.zipWith
      (fun a b => (monaural_specific_loudness_to_binaural_loudness_025 a b).2.2)
      sL sR) :=
    zipWith_nonneg nnList nnList
      (fun a b => (monaural_specific_loudness_to_binaural_loudness_025 a b).2.2)
      (fun a b ha hb => binauralR_nonneg ha hb) hsL hsR
  have hltlL := ltGo_nonneg (le_refl 0) hstlL
  have hltlR := ltGo_nonneg (le_refl 0) hstlR
  unfold outNonneg
  refine ⟨maxQ_nonneg _, ?_, ?_, rowSums_nonneg hiL, rowSums_nonneg hiR⟩
  · exact zipWith_nonneg (fun a => 0 ≤ a) (fun b => 0 ≤ b) (· + ·)
      (fun a b ha hb => add_nonneg ha hb) hstlL hstlR
  · exact zipWith_nonneg (fun a => 0 ≤ a) (fun b => 0 ≤ b) (· + ·)
      (fun a b ha hb => add_nonneg ha hb) hltlL hltlR

/-- The trimmed instantaneous matrix of the left channel is
non-negative. -/
theorem instTrimmedL_nonneg (s : Sig2) (db : ℚ) : nnMat (instTrimmedL s db) :=
  zeroFirst_nonneg (trim32_nonneg (instMat_nonneg s db 0))

/-- The trimmed instantaneous matrix of the right channel is
non-negative. -/
theorem instTrimmedR_nonneg (s : Sig2) (db : ℚ) : nnMat (instTrimmedR s db) :=
  zeroFirst_nonneg (trim32_nonneg (instMat_nonneg s db 1))

/-- The zero carry row is non-negative. -/
theorem zeroRow_nonneg (w : ℕ) : nnList (zeroRow w) := by
  intro x hx
  rw [List.eq_of_mem_replicate hx]

/-- The outputs of the pipeline tail are non-negative for every
cochlea signal and calibration level. -/
theorem outputsOf_nonneg (s : Sig2) (db : ℚ) : outNonneg (outputsOf s db) := by
  apply outputsFromShortTerm_nonneg (instTrimmedL_nonneg s db)
    (instTrimmedR_nonneg s db)
  · exact stGo_nonneg (zeroRow_nonneg nBands) (instTrimmedL_nonneg s db)
  · exact stGo_nonneg (zeroRow_nonneg nBands) (instTrimmedR_nonneg s db)

/-- Every run of the core pipeline has non-negative outputs. -/
theorem tv2018core_nonneg (sp : Sig2) (db : ℚ) (field : String) :
    exceptNonneg (tv2018core sp db field) := by
  unfold tv2018core
  cases h : sound_field_to_cochlea sp field with
  | error e => trivial
  | ok sc => exact outputsOf_nonneg sc db

/-- Padding followed by the core pipeline has non-negative outputs
whatever the input array. -/
theorem padThenCore_nonneg (inp : NpInput) (db : ℚ) (field : String) :
    exceptNonneg (padThenCore inp db field) := by
  unfold padThenCore
  cases inp with
  | one xs => trivial
  | two xss => exact tv2018core_nonneg (pad2 xss) db field

/-- The rate check, the padding and the core pipeline have
non-negative outputs whatever the input array and rate. -/
theorem resample_then_core_nonneg (s : NpInput) (fs : ℕ) (db : ℚ)
    (field : String) :
    exceptNonneg (match resampleStep s fs with
      | .error e => .error e
      | .ok s2 => padThenCore s2 db field) := by
  cases resampleStep s fs with
  | error e => trivial
  | ok s2 => exact padThenCore_nonneg s2 db field

/-- C7: for every input, every element of the returned short-term,
long-term, and per-channel instantaneous loudness sequences is
non-negative, and the overall loudness scalar is non-negative. -/
theorem outputs_nonneg (loadFn : String → NpInput × ℕ) (fn : String)
    (db : ℚ) (field : String) (s_opt : Option NpInput) (fs_opt : Option ℕ) :
    exceptNonneg (tv2018 loadFn fn db field s_opt fs_opt) := by
  unfold tv2018
  exact resample_then_core_nonneg _ _ db field

/-! ## Monotonicity in the calibration level (claim C6) -/

/-- Every loudness sequence is pointwise below itself. -/
theorem leV_refl (l : List ℚ) : leV l l :=
  List.forall₂_same.2 fun x _ => le_refl x

/-- The compressive transform is monotone on the non-negative
half-line. -/
theorem compress_mono {a b : ℚ} (ha : 0 ≤ a) (hab : a ≤ b) :
    a / (1 + a) ≤ b / (1 + b) := by
  have hb : (0 : ℚ) ≤ b := le_trans ha hab
  rw [div_le_div_iff₀ (by linarith) (by linarith)]
  nlinarith

/-- Specific loudness grows with the calibration level: the
thresholded excitation grows, and the compressive transform is
monotone. -/
theorem specificLoudness_mono (e : ℚ) {d1 d2 : ℚ} (h : d1 ≤ d2) (b : ℕ) :
    specificLoudness e d1 b ≤ specificLoudness e d2 b := by
  unfold specificLoudness
  exact compress_mono (le_max_left _ _) (max_le_max (le_refl 0) (by linarith))

/-- Mapping two pointwise-comparable functions over a list gives
pointwise-comparable results. -/
theorem forall2_map {α γ : Type} (R : γ → γ → Prop) (f g : α → γ) :
    ∀ (l : List α), (∀ x ∈ l, R (f x) (g x)) →
      List.Forall₂ R (l.map f) (l.map g) := by
  intro l
  induction l with
  | nil => intro _; exact List.Forall₂.nil
  | cons a as ih =>
    intro h
    exact List.Forall₂.cons (h a (List.mem_cons_self a as))
      (ih fun x hx => h x (List.mem_cons_of_mem a hx))

/-- Rows of the instantaneous matrix grow with the calibration
level. -/
theorem instRow_mono (c : ℕ) {d1 d2 : ℚ} (h : d1 ≤ d2) (fr : Sig2) :
    leV (instRow c d1 fr) (instRow c d2 fr) :=
  forall2_map (· ≤ ·) _ _ (List.range nBands)
    (fun b _ => specificLoudness_mono (frameLevel c fr) h b)

/-- The instantaneous matrices grow pointwise with the calibration
level. -/
theorem instMat_mono (s : Sig2) (c : ℕ) {d1 d2 : ℚ} (h : d1 ≤ d2) :
    leM ((frames s).map (instRow c d1)) ((frames s).map (instRow c d2)) :=
  forall2_map leV _ _ (frames s) (fun fr _ => instRow_mono c h fr)

/-- Trimming preserves the pointwise matrix order. -/
theorem trim32_mono {m1 m2 : Mat} (h : leM m1 m2) :
    leM (trim32 m1) (trim32 m2) := by
  unfold trim32
  rw [h.length_eq]
  exact List.forall₂_take _ (List.forall₂_drop _ h)

/-- Onset zeroing preserves the pointwise matrix order. -/
theorem zeroFirst_mono {m1 m2 : Mat} (h : leM m1 m2) :
    leM (zeroFirst m1) (zeroFirst m2) := by
  cases h with
  | nil => exact List.Forall₂.nil
  | cons hr ht =>
    rename_i r1 r2 rs1 rs2
    show leM (zeroRow r1.length :: rs1) (zeroRow r2.length :: rs2)
    rw [hr.length_eq]
    exact List.Forall₂.cons (leV_refl _) ht

/-- One short-term smoothing step is monotone in both the new frame
and the carry. -/
theorem st_step_mono {x1 x2 y1 y2 : ℚ} (hx : x1 ≤ x2) (hy : y1 ≤ y2) :
    st_step x1 y1 ≤ st_step x2 y2 := by
  unfold st_step
  split_ifs <;> linarith

/-- One long-term smoothing step is monotone in both the new value
and the carry. -/
theorem lt_step_mono {x1 x2 y1 y2 : ℚ} (hx : x1 ≤ x2) (hy : y1 ≤ y2) :
    lt_step x1 y1 ≤ lt_step x2 y2 := by
  unfold lt_step
  split_ifs <;> linarith

/-- Zipping with a relation-preserving combination preserves the
pointwise relations. -/
theorem forall2_zipWith {α β γ : Type}
    (R : α → α → Prop) (S : β → β → Prop) (T : γ → γ → Prop)
    (f : α → β → γ)
    (hf : ∀ a1 a2 b1 b2, R a1 a2 → S b1 b2 → T (f a1 b1) (f a2 b2)) :
    ∀ {l1 l2 : List α} {k1 k2 : List β}, List.Forall₂ R l1 l2 →
      List.Forall₂ S k1 k2 →
      List.Forall₂ T (List.zipWith f l1 k1) (List.zipWith f l2 k2) := by
  intro l1 l2 k1 k2 hl
  induction hl generalizing k1 k2 with
  | nil => intro _; exact List.Forall₂.nil
  | cons ha hl ih =>
    intro hk
    cases hk with
    | nil => exact List.Forall₂.nil
    | cons hb hk => exact List.Forall₂.cons (hf _ _ _ _ ha hb) (ih hk)

/-- The short-term fold is monotone in the carry and the matrix. -/
theorem stGo_mono : ∀ {m1 m2 : Mat} {y1 y2 : List ℚ}, leV y1 y2 →
    leM m1 m2 → leM (stGo y1 m1) (stGo y2 m2) := by
  intro m1 m2 y1 y2 hy hm
  induction hm generalizing y1 y2 with
  | nil => exact List.Forall₂.nil
  | cons hr hm ih =>
    rename_i r1 r2 rs1 rs2
    have hy' : leV (List.zipWith st_step r1 y1) (List.zipWith st_step r2 y2) :=
      forall2_zipWith (· ≤ ·) (· ≤ ·) (· ≤ ·) st_step
        (fun a1 a2 b1 b2 ha hb => st_step_mono ha hb) hr hy
    exact List.Forall₂.cons hy' (ih hy')

/-- Pointwise-larger sequences have larger sums. -/
theorem sum_mono {l1 l2 : List ℚ} (h : leV l1 l2) : l1.sum ≤ l2.sum := by
  induction h with
  | nil => exact le_refl 0
  | cons ha hl ih =>
    simp only [List.sum_cons]
    exact add_le_add ha ih

/-- The band-wise binaural combination is monotone in both ears. -/
theorem binCombine_mono {a1 a2 b1 b2 : ℚ} (ha : a1 ≤ a2) (hb : b1 ≤ b2) :
    binCombine a1 b1 ≤ binCombine a2 b2 := by
  have hmin : min a1 b1 ≤ min a2 b2 := min_le_min ha hb
  unfold binCombine
  linarith

/-- The left-attributed binaural total is monotone in both band
vectors. -/
theorem binauralL_mono {a1 a2 b1 b2 : List ℚ} (ha : leV a1 a2)
    (hb : leV b1 b2) :
    (monaural_specific_loudness_to_binaural_loudness_025 a1 b1).2.1
      ≤ (monaural_specific_loudness_to_binaural_loudness_025 a2 b2).2.1 := by
  show (List.zipWith binCombine a1 b1).sum / 4
    ≤ (List.zipWith binCombine a2 b2).sum / 4
  have hs := sum_mono (forall2_zipWith (· ≤ ·) (· ≤ ·) (· ≤ ·) binCombine
    (fun x1 x2 y1 y2 hx hy => binCombine_mono hx hy) ha hb)
  linarith

/-- The right-attributed binaural total is monotone in both band
vectors. -/
theorem binauralR_mono {a1 a2 b1 b2 : List ℚ} (ha : leV a1 a2)
    (hb : leV b1 b2) :
    (monaural_specific_loudness_to_binaural_loudness_025 a1 b1).2.2
      ≤ (monaural_specific_loudness_to_binaural_loudness_025 a2 b2).2.2 := by
  show (List.zipWith binCombine b1 a1).sum / 4
    ≤ (List.zipWith binCombine b2 a2).sum / 4
  have hs := sum_mono (forall2_zipWith (· ≤ ·) (· ≤ ·) (· ≤ ·) binCombine
    (fun x1 x2 y1 y2 hx hy => binCombine_mono hx hy) hb ha)
  linarith

/-- The long-term fold is monotone in the carry and the sequence. -/
theorem ltGo_mono : ∀ {xs1 xs2 : List ℚ} {y1 y2 : ℚ}, y1 ≤ y2 →
    leV xs1 xs2 → leV (ltGo y1 xs1) (ltGo y2 xs2) := by
  intro xs1 xs2 y1 y2 hy hxs
  induction hxs generalizing y1 y2 with
  | nil => exact List.Forall₂.nil
  | cons hx hxs ih =>
    have hy' := lt_step_mono hx hy
    exact List.Forall₂.cons hy' (ih hy')

/-- The sequence maximum is monotone in the pointwise order. -/
theorem maxQ_mono {l1 l2 : List ℚ} (h : leV l1 l2) : maxQ l1 ≤ maxQ l2 := by
  induction h with
  | nil => exact le_refl 0
  | cons ha hl ih =>
    simp only [maxQ]
    exact max_le_max ha ih

/-- The loudness scalar of the pipeline tail never decreases when the
calibration level increases, the cochlea signal being fixed. -/
theorem outputsOf_loudness_mono (s : Sig2) {d1 d2 : ℚ} (h : d1 ≤ d2) :
    (outputsOf s d1).loudness ≤ (outputsOf s d2).loudness := by
  have hiL : leM (instTrimmedL s d1) (instTrimmedL s d2) :=
    zeroFirst_mono (trim32_mono (instMat_mono s 0 h))
  have hiR : leM (instTrimmedR s d1) (instTrimmedR s d2) :=
    zeroFirst_mono (trim32_mono (instMat_mono s 1 h))
  have hsL : leM (stGo (zeroRow nBands) (instTrimmedL s d1))
      (stGo (zeroRow nBands) (instTrimmedL s d2)) :=
    stGo_mono (leV_refl _) hiL
  have hsR : leM (stGo (zeroRow nBands) (instTrimmedR s d1))
      (stGo (zeroRow nBands) (instTrimmedR s d2)) :=
    stGo_mono (leV_refl _) hiR
  have hstlL := forall2_zipWith leV leV (· ≤ ·)
    (fun a b => (monaural_specific_loudness_to_binaural_loudness_025 a b).2.1)
    (fun a1 a2 b1 b2 ha hb => binauralL_mono ha hb) hsL hsR
  have hstlR := forall2_zipWith leV leV (· ≤ ·)
    (fun a b => (monaural_specific_loudness_to_binaural_loudness_025 a b).2.2)
    (fun a1 a2 b1 b2 ha hb => binauralR_mono ha hb) hsL hsR
  have hltlL := ltGo_mono (le_refl 0) hstlL
  have hltlR := ltGo_mono (le_refl 0) hstlR
  exact maxQ_mono (forall2_zipWith (· ≤ ·) (· ≤ ·) (· ≤ ·) (· + ·)
    (fun a1 a2 b1 b2 ha hb => add_le_add ha hb) hltlL hltlR)

/-- The core pipeline's loudness scalar is monotone in the
calibration level for a fixed padded signal and field type. -/
theorem tv2018core_loudness_mono (sp : Sig2) (field : String) {d1 d2 : ℚ}
    (h : d1 ≤ d2) :
    loudnessOf (tv2018core sp d1 field) ≤ loudnessOf (tv2018core sp d2 field) := by
  unfold tv2018core
  cases hc : sound_field_to_cochlea sp field with
  | error e => exact le_refl 0
  | ok sc => exact outputsOf_loudness_mono sc h

/-- Padding followed by the core pipeline keeps the loudness scalar
monotone in the calibration level. -/
theorem padThenCore_loudness_mono (inp : NpInput) (field : String)
    {d1 d2 : ℚ} (h : d1 ≤ d2) :
    loudnessOf (padThenCore inp d1 field)
      ≤ loudnessOf (padThenCore inp d2 field) := by
  unfold padThenCore
  cases inp with
  | one xs => exact le_refl 0
  | two xss => exact tv2018core_loudness_mono (pad2 xss) field h

/-- The rate check, the padding and the core pipeline keep the
loudness scalar monotone in the calibration level. -/
theorem resample_then_core_loudness_mono (s : NpInput) (fs : ℕ)
    (field : String) {d1 d2 : ℚ} (h : d1 ≤ d2) :
    loudnessOf (match resampleStep s fs with
      | .error e => .error e
      | .ok s2 => padThenCore s2 d1 field)
    ≤ loudnessOf (match resampleStep s fs with
      | .error e => .error e
      | .ok s2 => padThenCore s2 d2 field) := by
  cases resampleStep s fs with
  | error e => exact le_refl 0
  | ok s2 => exact padThenCore_loudness_mono s2 field h

/-- C6: for every fixed signal, sampling rate and field type, and
every pair of calibration levels d1 <= d2, the overall loudness
scalar computed with d2 is at least the scalar computed with d1. -/
theorem loudness_monotone_in_db_max (loadFn : String → NpInput × ℕ)
    (fn : String) (field : String) (s : NpInput) (fs : ℕ) (d1 d2 : ℚ)
    (h : d1 ≤ d2) :
    loudnessOf (tv2018 loadFn fn d1 field (some s) (some fs))
      ≤ loudnessOf (tv2018 loadFn fn d2 field (some s) (some fs)) := by
  unfold tv2018
  exact resample_then_core_loudness_mono _ _ field h

/-- C6, instance: the monotonicity theorem applied at calibration
levels 0 and 1 on a concrete two-channel signal. -/
theorem loudness_monotone_in_db_max_inst :
    ((0 : ℚ) ≤ 1)
    ∧ loudnessOf (tv2018 loadStub fnameA 0 fieldFree
        (some (NpInput.two [[0, 0]])) (some 32000))
      ≤ loudnessOf (tv2018 loadStub fnameA 1 fieldFree
        (some (NpInput.two [[0, 0]])) (some 32000)) :=
  ⟨by norm_num,
   loudness_monotone_in_db_max loadStub fnameA fieldFree
     (NpInput.two [[0, 0]]) 32000 0 1 (by norm_num)⟩
